import Mathlib

/-!
Verification of the fee-ledger core of a multi-tenant school-administration
backend.  Monetary quantities are JavaScript numbers in the source; they are
embedded as exact rationals (`ℚ`), which model every arithmetic operation the
code performs (`+`, `-`, `Math.min`, comparisons) without rounding.
Mongo collections are embedded as Lean lists of rows; surrogate `_id` values
that play no role in the verified logic are omitted, all logic being keyed on
the natural / compound keys the schemas index.
-/

namespace WebOS

/-- One row of the client-side ledger `dues` array
(`LedgerDue` in `FeePaymentsPage.tsx`). -/
structure LedgerDue where
  feeHeadId : String
  name : String
  due : ℚ
  paid : ℚ
  balance : ℚ
  deriving Repr, DecidableEq

/-- One itemized entry of a fee payment (`{feeHeadId, amountPaid}`). -/
structure PaymentItem where
  feeHeadId : String
  amountPaid : ℚ
  deriving Repr, DecidableEq

/-- The `for (const due of dues)` loop body of `allocatePayment`
(`FeePaymentsPage.tsx`): at each iteration the loop first breaks when
`remainingAmount <= 0`, then, for a due with positive balance, pays
`Math.min(remainingAmount, due.balance)`, pushes the item when that amount is
positive, and decrements the remaining amount. -/
def allocGo (remainingAmount : ℚ) : List LedgerDue → List PaymentItem × ℚ
  | [] => ([], remainingAmount)
  | due :: rest =>
    if remainingAmount ≤ 0 then ([], remainingAmount)
    else if 0 < due.balance then
      let amountToPayThisHead := min remainingAmount due.balance
      if 0 < amountToPayThisHead then
        let out := allocGo (remainingAmount - amountToPayThisHead) rest
        (⟨due.feeHeadId, amountToPayThisHead⟩ :: out.1, out.2)
      else allocGo remainingAmount rest
    else allocGo remainingAmount rest

/-- `allocatePayment(amountToAllocate, dues)` from `FeePaymentsPage.tsx`:
returns the items list and the remaining (unallocated) amount. -/
def allocatePayment (amountToAllocate : ℚ) (dues : List LedgerDue) :
    List PaymentItem × ℚ :=
  allocGo amountToAllocate dues

/-- Modelled from the spec: the §4.2 allocation algorithm as worded —
iterate the dues in caller order, stop when the remaining amount reaches
zero, allocate `min(remainingAmount, balance)` to each due with positive
balance, appending the (necessarily non-zero) item. -/
def allocateSpec (remainingAmount : ℚ) : List LedgerDue → List PaymentItem × ℚ
  | [] => ([], remainingAmount)
  | due :: rest =>
    if remainingAmount = 0 then ([], 0)
    else if 0 < due.balance then
      let a := min remainingAmount due.balance
      let out := allocateSpec (remainingAmount - a) rest
      (⟨due.feeHeadId, a⟩ :: out.1, out.2)
    else allocateSpec remainingAmount rest

/-- Sum of the `amountPaid` fields of a list of payment items. -/
def itemsSum (items : List PaymentItem) : ℚ :=
  (items.map PaymentItem.amountPaid).sum

/-- Sum of the positive balances of a dues list. -/
def posBalanceSum (dues : List LedgerDue) : ℚ :=
  (dues.map (fun d => max d.balance 0)).sum

-- Concrete dues used by the spec's worked examples.

/-- Example due A with balance 100. -/
def dueA100 : LedgerDue := ⟨"A", "Head A", 100, 0, 100⟩

/-- Example due B with balance 50. -/
def dueB50 : LedgerDue := ⟨"B", "Head B", 50, 0, 50⟩

/-- Example due A with balance 50. -/
def dueA50 : LedgerDue := ⟨"A", "Head A", 50, 0, 50⟩

theorem itemsSum_nil : itemsSum [] = 0 := rfl

theorem itemsSum_cons (i : PaymentItem) (l : List PaymentItem) :
    itemsSum (i :: l) = i.amountPaid + itemsSum l := by
  simp [itemsSum]

theorem posBalanceSum_nil : posBalanceSum [] = 0 := rfl

theorem posBalanceSum_cons (d : LedgerDue) (l : List LedgerDue) :
    posBalanceSum (d :: l) = max d.balance 0 + posBalanceSum l := by
  simp [posBalanceSum]

theorem posBalanceSum_nonneg (dues : List LedgerDue) : 0 ≤ posBalanceSum dues := by
  induction dues with
  | nil => simp [posBalanceSum_nil]
  | cons d rest ih =>
    rw [posBalanceSum_cons]
    have : (0 : ℚ) ≤ max d.balance 0 := le_max_right _ _
    linarith

theorem allocGo_nonpos (r : ℚ) (dues : List LedgerDue) (h : r ≤ 0) :
    allocGo r dues = ([], r) := by
  cases dues with
  | nil => rfl
  | cons d rest => simp [allocGo, if_pos h]

theorem allocateSpec_zero (dues : List LedgerDue) : allocateSpec 0 dues = ([], 0) := by
  cases dues with
  | nil => rfl
  | cons d rest => simp [allocateSpec]

theorem allocGo_eq_spec (dues : List LedgerDue) :
    ∀ r : ℚ, 0 < r → allocGo r dues = allocateSpec r dues := by
  induction dues with
  | nil => intro r _; rfl
  | cons d rest ih =>
    intro r hr
    rw [allocGo, allocateSpec]
    rw [if_neg (by linarith : ¬ r ≤ 0), if_neg (by linarith : ¬ r = 0)]
    by_cases hb : 0 < d.balance
    · rw [if_pos hb, if_pos hb]
      have hmin : 0 < min r d.balance := lt_min hr hb
      rw [if_pos hmin]
      have hle : min r d.balance ≤ r := min_le_left _ _
      have key : allocGo (r - min r d.balance) rest
          = allocateSpec (r - min r d.balance) rest := by
        rcases eq_or_lt_of_le (by linarith : (0 : ℚ) ≤ r - min r d.balance) with h0 | h0
        · rw [← h0, allocGo_nonpos 0 rest le_rfl, allocateSpec_zero]
        · exact ih _ h0
      simp only [key]
    · rw [if_neg hb, if_neg hb, ih _ hr]

/-- **C1.** For every positive amount, `allocatePayment` computes exactly the
greedy, order-preserving allocation the spec describes (`allocateSpec`):
iterate dues in caller order, allocate `min(remainingAmount, balance)` to each
due with positive balance, appending a non-zero item and decrementing the
remaining amount, stopping when it reaches zero or the dues are exhausted; in
particular `allocatePayment 120 [{A,100},{B,50}] = ([{A,100},{B,20}], 0)`. -/
theorem allocatePayment_order_preserving_greedy
    (amount : ℚ) (dues : List LedgerDue) (h : 0 < amount) :
    allocatePayment amount dues = allocateSpec amount dues
    ∧ allocatePayment 120 [dueA100, dueB50] = ([⟨"A", 100⟩, ⟨"B", 20⟩], 0) := by
  refine ⟨allocGo_eq_spec dues amount h, ?_⟩
  norm_num [allocatePayment, allocGo, dueA100, dueB50]

/-- Witness for C1 at amount 120 and dues `[{A,100},{B,50}]`. -/
theorem allocatePayment_order_preserving_greedy_witness :
    (0 : ℚ) < 120
    ∧ allocatePayment 120 [dueA100, dueB50] = allocateSpec 120 [dueA100, dueB50] :=
  ⟨by norm_num,
    (allocatePayment_order_preserving_greedy 120 [dueA100, dueB50] (by norm_num)).1⟩

theorem allocGo_conserve (dues : List LedgerDue) :
    ∀ r : ℚ, itemsSum (allocGo r dues).1 + (allocGo r dues).2 = r := by
  induction dues with
  | nil => intro r; simp [allocGo, itemsSum_nil]
  | cons d rest ih =>
    intro r
    rw [allocGo]
    by_cases h0 : r ≤ 0
    · rw [if_pos h0]; simp [itemsSum_nil]
    · rw [if_neg h0]
      by_cases hb : 0 < d.balance
      · rw [if_pos hb]
        by_cases hmin : 0 < min r d.balance
        · rw [if_pos hmin]
          simp only [itemsSum_cons]
          have := ih (r - min r d.balance)
          linarith
        · rw [if_neg hmin]; exact ih r
      · rw [if_neg hb]; exact ih r

theorem allocGo_snd (dues : List LedgerDue) :
    ∀ r : ℚ, 0 ≤ r → (allocGo r dues).2 = max (r - posBalanceSum dues) 0 := by
  induction dues with
  | nil =>
    intro r hr
    simp [allocGo, posBalanceSum_nil, max_eq_left hr]
  | cons d rest ih =>
    intro r hr
    rw [allocGo, posBalanceSum_cons]
    have hpos := posBalanceSum_nonneg rest
    have hmax0 : (0 : ℚ) ≤ max d.balance 0 := le_max_right _ _
    by_cases h0 : r ≤ 0
    · rw [if_pos h0]
      have hr0 : r = 0 := le_antisymm h0 hr
      subst hr0
      rw [max_eq_right (by linarith)]
    · rw [if_neg h0]
      push_neg at h0
      by_cases hb : 0 < d.balance
      · rw [if_pos hb]
        have hmin : 0 < min r d.balance := lt_min h0 hb
        rw [if_pos hmin]
        have hle : min r d.balance ≤ r := min_le_left _ _
        rw [ih _ (by linarith)]
        rw [max_eq_left (le_of_lt hb)]
        rcases le_total r d.balance with hrb | hrb
        · rw [min_eq_left hrb]
          rw [max_eq_right (by linarith), max_eq_right (by linarith)]
        · rw [min_eq_right hrb]
          ring_nf
      · rw [if_neg hb]
        push_neg at hb
        rw [ih _ hr, max_eq_right hb]
        ring_nf

/-- **C2.** For every positive amount and every dues list, the allocation
conserves money: `Σ items.amountPaid + remainder = amount`; the items sum never
exceeds the amount, with equality exactly when the amount does not exceed the
sum of all positive balances, and otherwise the remainder equals
`amount − Σ positive balances > 0`; in particular
`allocatePayment 80 [{A,50}] = ([{A,50}], 30)`. -/
theorem allocatePayment_conservation
    (amount : ℚ) (dues : List LedgerDue) (h : 0 < amount) :
    itemsSum (allocatePayment amount dues).1 + (allocatePayment amount dues).2 = amount
    ∧ itemsSum (allocatePayment amount dues).1 ≤ amount
    ∧ (itemsSum (allocatePayment amount dues).1 = amount ↔ amount ≤ posBalanceSum dues)
    ∧ (posBalanceSum dues < amount →
        (allocatePayment amount dues).2 = amount - posBalanceSum dues
        ∧ 0 < (allocatePayment amount dues).2)
    ∧ allocatePayment 80 [dueA50] = ([⟨"A", 50⟩], 30) := by
  simp only [allocatePayment]
  have hcons := allocGo_conserve dues amount
  have hsnd := allocGo_snd dues amount (le_of_lt h)
  have hsnd_nonneg : 0 ≤ (allocGo amount dues).2 := by
    rw [hsnd]; exact le_max_right _ _
  refine ⟨hcons, by linarith, ?_, ?_, ?_⟩
  · constructor
    · intro heq
      have h2 : (allocGo amount dues).2 = 0 := by linarith
      rw [hsnd] at h2
      have := max_eq_right_iff.mp h2
      linarith
    · intro hle
      have h2 : (allocGo amount dues).2 = 0 := by
        rw [hsnd]; exact max_eq_right (by linarith)
      linarith
  · intro hover
    rw [hsnd, max_eq_left (by linarith)]
    exact ⟨rfl, by linarith⟩
  · norm_num [allocGo, dueA50]

/-- Witness for C2 at amount 80 and dues `[{A,50}]`. -/
theorem allocatePayment_conservation_witness :
    itemsSum (allocatePayment 80 [dueA50]).1 + (allocatePayment 80 [dueA50]).2 = 80
    ∧ (posBalanceSum [dueA50] < 80 →
        (allocatePayment 80 [dueA50]).2 = 80 - posBalanceSum [dueA50]) := by
  have h := allocatePayment_conservation 80 [dueA50] (by norm_num)
  exact ⟨h.1, fun hov => (h.2.2.2.1 hov).1⟩

/-- **C3.** For every input, every emitted item has a positive `amountPaid`,
and every emitted item allocates to a due of the input list whose balance is
positive (so no due with balance ≤ 0 ever receives an allocation item). -/
theorem allocatePayment_items_positive
    (amount : ℚ) (dues : List LedgerDue) (it : PaymentItem)
    (hmem : it ∈ (allocatePayment amount dues).1) :
    0 < it.amountPaid
    ∧ ∃ d ∈ dues, d.feeHeadId = it.feeHeadId ∧ 0 < d.balance := by
  rw [allocatePayment] at hmem
  induction dues generalizing amount with
  | nil => simp [allocGo] at hmem
  | cons d rest ih =>
    rw [allocGo] at hmem
    by_cases h0 : amount ≤ 0
    · rw [if_pos h0] at hmem; simp at hmem
    · rw [if_neg h0] at hmem
      by_cases hb : 0 < d.balance
      · rw [if_pos hb] at hmem
        by_cases hmin : 0 < min amount d.balance
        · rw [if_pos hmin] at hmem
          rcases List.mem_cons.mp hmem with heq | htail
          · subst heq
            exact ⟨hmin, d, List.mem_cons_self _ _, rfl, hb⟩
          · obtain ⟨hpos, d', hd', hfh, hbal⟩ := ih _ htail
            exact ⟨hpos, d', List.mem_cons_of_mem _ hd', hfh, hbal⟩
        · rw [if_neg hmin] at hmem
          obtain ⟨hpos, d', hd', hfh, hbal⟩ := ih _ hmem
          exact ⟨hpos, d', List.mem_cons_of_mem _ hd', hfh, hbal⟩
      · rw [if_neg hb] at hmem
        obtain ⟨hpos, d', hd', hfh, hbal⟩ := ih _ hmem
        exact ⟨hpos, d', List.mem_cons_of_mem _ hd', hfh, hbal⟩

/-- Witness for C3: the item `{A,100}` emitted on amount 120 against dues
`[{A,100},{B,50}]` is positive and targets a positive-balance due. -/
theorem allocatePayment_items_positive_witness :
    0 < (PaymentItem.mk "A" 100).amountPaid
    ∧ ∃ d ∈ [dueA100, dueB50], d.feeHeadId = (PaymentItem.mk "A" 100).feeHeadId
        ∧ 0 < d.balance :=
  allocatePayment_items_positive 120 [dueA100, dueB50] ⟨"A", 100⟩
    (by norm_num [allocatePayment, allocGo, dueA100, dueB50])

/-! ## Client payment submission (`onSubmit` in `FeePaymentsPage.tsx`) -/

/-- The `summary` object of the ledger response. -/
structure LedgerSummaryView where
  totalDue : ℚ
  totalPaid : ℚ
  balance : ℚ
  deriving Repr, DecidableEq

/-- The client-side view of a student ledger (`StudentLedger` type):
the per-head `dues` rows and the aggregate summary. -/
structure StudentLedgerView where
  dues : List LedgerDue
  summary : LedgerSummaryView
  deriving Repr, DecidableEq

/-- The JSON payload `onSubmit` posts to `POST /api/fees/payments`. -/
structure PaymentPayload where
  studentId : String
  classId : String
  monthYear : String
  totalAmountPaid : ℚ
  items : List PaymentItem
  deriving Repr, DecidableEq

/-- Outcome of the client submit handler: a client-side form rejection
(nothing is sent to the server, so nothing is persisted), or a posted
payment payload that the server persists. -/
inductive SubmitOutcome where
  | formError : SubmitOutcome
  | posted : PaymentPayload → SubmitOutcome
  deriving Repr, DecidableEq

/-- The decision logic of `onSubmit` in `FeePaymentsPage.tsx`:
reject when `data.amount > ledger.summary.balance + 0.01`, reject when
`data.amount < 0.01`, allocate against the live dues, reject when no item
could be allocated, otherwise post `{…, totalAmountPaid: data.amount, items}`.
(The handler's student/month/token presence checks are modelled as satisfied
by the caller.) -/
def onSubmit (amount : ℚ) (ledger : StudentLedgerView)
    (studentId classId monthYear : String) : SubmitOutcome :=
  if ledger.summary.balance + 1/100 < amount then .formError
  else if amount < 1/100 then .formError
  else
    let items := (allocatePayment amount ledger.dues).1
    if items = [] then .formError
    else .posted ⟨studentId, classId, monthYear, amount, items⟩

/-- A ledger with a single due of 50 and an aggregate balance of 50. -/
def exLedger50 : StudentLedgerView := ⟨[dueA50], ⟨50, 0, 50⟩⟩

/-- **C5, counterexample.** At amount `50.01` against an outstanding balance
of 50, the amount exceeds the balance and the allocation leaves the non-zero
remainder `0.01`, yet the client posts the payment for persistence instead of
rejecting it: the `> balance + 0.01` guard lets amounts up to `balance + 0.01`
through. -/
theorem onSubmit_overpay_slips_through :
    exLedger50.summary.balance < 5001/100
    ∧ (allocatePayment (5001/100) exLedger50.dues).2 ≠ 0
    ∧ onSubmit (5001/100) exLedger50 "s1" "c1" "2025-10"
        = .posted ⟨"s1", "c1", "2025-10", 5001/100, [⟨"A", 50⟩]⟩ := by
  refine ⟨by norm_num [exLedger50], ?_, ?_⟩
  · norm_num [allocatePayment, allocGo, exLedger50, dueA50]
  · norm_num [onSubmit, allocatePayment, allocGo, exLedger50, dueA50]

/-- **C5, amended.** A lump-sum payment whose amount exceeds the student's
reported outstanding balance by more than `0.01` is rejected by the payment
form before anything is sent to the server, so no such payment is ever
persisted. -/
theorem onSubmit_rejects_over_balance
    (amount : ℚ) (ledger : StudentLedgerView)
    (studentId classId monthYear : String)
    (h : ledger.summary.balance + 1/100 < amount) :
    onSubmit amount ledger studentId classId monthYear = .formError := by
  rw [onSubmit, if_pos h]

/-- Witness for the amended C5: amount 100 against balance 50 is rejected. -/
theorem onSubmit_rejects_over_balance_witness :
    exLedger50.summary.balance + 1/100 < 100
    ∧ onSubmit 100 exLedger50 "s1" "c1" "2025-10" = .formError :=
  ⟨by norm_num [exLedger50],
    onSubmit_rejects_over_balance 100 exLedger50 "s1" "c1" "2025-10"
      (by norm_num [exLedger50])⟩

/-! ## Fee structure upsert (`POST /fees/structures`) -/

/-- Error taxonomy of the API surface (spec §7). -/
inductive ApiError where
  | invalidInput : ApiError
  | notFound : ApiError
  | conflict : ApiError
  | serverError : ApiError
  deriving Repr, DecidableEq

/-- One stored `FeeStructure` document (surrogate `_id` omitted; all logic is
keyed on the compound key). -/
structure FeeStructureRow where
  schoolId : String
  classId : String
  feeHeadId : String
  amount : ℚ
  monthYear : String
  deriving Repr, DecidableEq

/-- The compound key `(schoolId, classId, feeHeadId, monthYear)` of the
unique index on the `FeeStructure` collection. -/
def structKey (f : FeeStructureRow) : String × String × String × String :=
  (f.schoolId, f.classId, f.feeHeadId, f.monthYear)

/-- `FeeStructure.findOneAndUpdate(filter, {$set: …}, {upsert: true})`:
update the first document matching the compound key in place, or append a
new document when none matches. The `$set` covers every field, so the
written document is fully determined by the arguments. -/
def upsertStructure (schoolId classId feeHeadId monthYear : String) (amount : ℚ) :
    List FeeStructureRow → List FeeStructureRow
  | [] => [⟨schoolId, classId, feeHeadId, amount, monthYear⟩]
  | r :: rest =>
    if structKey r = (schoolId, classId, feeHeadId, monthYear) then
      { r with amount := amount } :: rest
    else r :: upsertStructure schoolId classId feeHeadId monthYear amount rest

/-- The `POST /fees/structures` handler: reject missing fields and negative
amounts with `InvalidInput` (HTTP 400), otherwise upsert on the compound key
and return the updated collection state. -/
def setFeeStructure (rows : List FeeStructureRow)
    (schoolId classId feeHeadId monthYear : String) (amount : ℚ) :
    Except ApiError (List FeeStructureRow) :=
  if classId = "" ∨ feeHeadId = "" ∨ monthYear = "" then .error .invalidInput
  else if amount < 0 then .error .invalidInput
  else .ok (upsertStructure schoolId classId feeHeadId monthYear amount rows)

/-- Boolean test for the compound key, as used by the `findOneAndUpdate`
filter. -/
def isKey (s c f m : String) (r : FeeStructureRow) : Bool :=
  structKey r = (s, c, f, m)

theorem isKey_true {r : FeeStructureRow} {s c f m : String}
    (hk : structKey r = (s, c, f, m)) : isKey s c f m r = true := by
  simp [isKey, hk]

theorem isKey_false {r : FeeStructureRow} {s c f m : String}
    (hk : ¬ structKey r = (s, c, f, m)) : ¬ isKey s c f m r = true := by
  simp [isKey, hk]

theorem structKey_eq_iff (r : FeeStructureRow) (s c f m : String) :
    structKey r = (s, c, f, m)
      ↔ r.schoolId = s ∧ r.classId = c ∧ r.feeHeadId = f ∧ r.monthYear = m := by
  simp [structKey, Prod.ext_iff]

theorem structKey_set_amount (r : FeeStructureRow) (a : ℚ) :
    structKey { r with amount := a } = structKey r := rfl

theorem upsertStructure_countP (s c f m : String) (a : ℚ) (rows : List FeeStructureRow)
    (h : rows.countP (isKey s c f m) ≤ 1) :
    (upsertStructure s c f m a rows).countP (isKey s c f m) = 1 := by
  induction rows with
  | nil =>
    rw [upsertStructure]
    rw [List.countP_cons_of_pos _ _ (isKey_true (by simp [structKey]))]
    simp
  | cons r rest ih =>
    rw [upsertStructure]
    by_cases hk : structKey r = (s, c, f, m)
    · rw [if_pos hk]
      rw [List.countP_cons_of_pos _ _ (isKey_true hk)] at h
      rw [List.countP_cons_of_pos _ _ (isKey_true (structKey_set_amount r a ▸ hk))]
      omega
    · rw [if_neg hk]
      rw [List.countP_cons_of_neg _ _ (isKey_false hk)] at h
      rw [List.countP_cons_of_neg _ _ (isKey_false hk)]
      exact ih h

theorem upsertStructure_find? (s c f m : String) (a : ℚ) (rows : List FeeStructureRow) :
    (upsertStructure s c f m a rows).find? (isKey s c f m)
      = some ⟨s, c, f, a, m⟩ := by
  induction rows with
  | nil =>
    rw [upsertStructure]
    exact List.find?_cons_of_pos _ (isKey_true (by simp [structKey]))
  | cons r rest ih =>
    rw [upsertStructure]
    by_cases hk : structKey r = (s, c, f, m)
    · rw [if_pos hk]
      rw [List.find?_cons_of_pos _ (isKey_true (structKey_set_amount r a ▸ hk))]
      obtain ⟨h1, h2, h3, h4⟩ := (structKey_eq_iff r s c f m).mp hk
      cases r
      simp_all
    · rw [if_neg hk]
      rw [List.find?_cons_of_neg _ (isKey_false hk)]
      exact ih

theorem upsertStructure_length (s c f m : String) (a : ℚ) (rows : List FeeStructureRow)
    (h : 1 ≤ rows.countP (isKey s c f m)) :
    (upsertStructure s c f m a rows).length = rows.length := by
  induction rows with
  | nil => simp at h
  | cons r rest ih =>
    rw [upsertStructure]
    by_cases hk : structKey r = (s, c, f, m)
    · rw [if_pos hk]; simp
    · rw [if_neg hk]
      rw [List.countP_cons_of_neg _ _ (isKey_false hk)] at h
      simp [ih h]

theorem map_untouched (s c f m : String) (b : ℚ) (l : List FeeStructureRow)
    (h : ∀ x ∈ l, ¬ structKey x = (s, c, f, m)) :
    l.map (fun r => if structKey r = (s, c, f, m) then { r with amount := b } else r)
      = l := by
  induction l with
  | nil => rfl
  | cons x xs ih =>
    rw [List.map_cons, if_neg (h x (List.mem_cons_self _ _)),
      ih (fun y hy => h y (List.mem_cons_of_mem _ hy))]

theorem upsertStructure_eq_map (s c f m : String) (b : ℚ) (rows : List FeeStructureRow)
    (h : rows.countP (isKey s c f m) = 1) :
    upsertStructure s c f m b rows
      = rows.map (fun r =>
          if structKey r = (s, c, f, m) then { r with amount := b } else r) := by
  induction rows with
  | nil => simp at h
  | cons r rest ih =>
    rw [upsertStructure, List.map_cons]
    by_cases hk : structKey r = (s, c, f, m)
    · rw [if_pos hk, if_pos hk]
      rw [List.countP_cons_of_pos _ _ (isKey_true hk)] at h
      have hz : rest.countP (isKey s c f m) = 0 := by omega
      have hrest : ∀ x ∈ rest, ¬ structKey x = (s, c, f, m) := by
        intro x hx
        have hb := List.countP_eq_zero.mp hz x hx
        intro hcontra
        exact hb (isKey_true hcontra)
      rw [map_untouched s c f m b rest hrest]
    · rw [if_neg hk, if_neg hk]
      rw [List.countP_cons_of_neg _ _ (isKey_false hk)] at h
      rw [ih h]

theorem upsertStructure_idem (s c f m : String) (a : ℚ) (rows : List FeeStructureRow) :
    upsertStructure s c f m a (upsertStructure s c f m a rows)
      = upsertStructure s c f m a rows := by
  induction rows with
  | nil => simp [upsertStructure, structKey]
  | cons r rest ih =>
    rw [upsertStructure]
    by_cases hk : structKey r = (s, c, f, m)
    · rw [if_pos hk]
      rw [upsertStructure, if_pos (structKey_set_amount r a ▸ hk)]
    · rw [if_neg hk]
      rw [upsertStructure, if_neg hk, ih]

/-- **C6.** `setFeeStructure` is an idempotent upsert on the compound key
`(schoolId, classId, feeHeadId, monthYear)`: under the collection's unique
index (at most one row per key), a successful call leaves exactly one row for
the key carrying the requested amount; repeating the call with the same
amount returns the state unchanged; calling again with a different amount
updates that row's amount in place — same row count, same positions, no
second row for the key ever appears. -/
theorem setFeeStructure_upsert_semantics
    (rows rows1 rows2 : List FeeStructureRow)
    (schoolId classId feeHeadId monthYear : String) (a b : ℚ)
    (hcount : rows.countP (isKey schoolId classId feeHeadId monthYear) ≤ 1)
    (h1 : setFeeStructure rows schoolId classId feeHeadId monthYear a = .ok rows1)
    (h2 : setFeeStructure rows1 schoolId classId feeHeadId monthYear b = .ok rows2) :
    setFeeStructure rows1 schoolId classId feeHeadId monthYear a = .ok rows1
    ∧ rows1.countP (isKey schoolId classId feeHeadId monthYear) = 1
    ∧ rows1.find? (isKey schoolId classId feeHeadId monthYear)
        = some ⟨schoolId, classId, feeHeadId, a, monthYear⟩
    ∧ rows2.countP (isKey schoolId classId feeHeadId monthYear) = 1
    ∧ rows2.find? (isKey schoolId classId feeHeadId monthYear)
        = some ⟨schoolId, classId, feeHeadId, b, monthYear⟩
    ∧ rows2.length = rows1.length
    ∧ rows2 = rows1.map (fun r =>
        if structKey r = (schoolId, classId, feeHeadId, monthYear)
        then { r with amount := b } else r) := by
  rw [setFeeStructure] at h1 h2
  by_cases hval : classId = "" ∨ feeHeadId = "" ∨ monthYear = ""
  · rw [if_pos hval] at h1; exact absurd h1 (by simp)
  · rw [if_neg hval] at h1 h2
    by_cases ha : a < 0
    · rw [if_pos ha] at h1; exact absurd h1 (by simp)
    · rw [if_neg ha] at h1
      by_cases hb : b < 0
      · rw [if_pos hb] at h2; exact absurd h2 (by simp)
      · rw [if_neg hb] at h2
        have e1 : rows1 = upsertStructure schoolId classId feeHeadId monthYear a rows := by
          injection h1 with h; exact h.symm
        have e2 : rows2 = upsertStructure schoolId classId feeHeadId monthYear b rows1 := by
          injection h2 with h; exact h.symm
        have hc1 : rows1.countP (isKey schoolId classId feeHeadId monthYear) = 1 := by
          rw [e1]; exact upsertStructure_countP _ _ _ _ _ _ hcount
        refine ⟨?_, hc1, ?_, ?_, ?_, ?_, ?_⟩
        · rw [setFeeStructure, if_neg hval, if_neg ha, e1, upsertStructure_idem]
        · rw [e1]; exact upsertStructure_find? _ _ _ _ _ _
        · rw [e2]; exact upsertStructure_countP _ _ _ _ _ _ (le_of_eq hc1)
        · rw [e2]; exact upsertStructure_find? _ _ _ _ _ _
        · rw [e2]; exact upsertStructure_length _ _ _ _ _ _ (le_of_eq hc1.symm)
        · rw [e2]; exact upsertStructure_eq_map _ _ _ _ _ _ hc1

/-- Witness for C6: on an initially empty collection, setting
`("S","C1","H1","2025-10")` to 100 and then to 120 exhibits the idempotent
in-place upsert. -/
theorem setFeeStructure_upsert_semantics_witness :
    setFeeStructure [⟨"S", "C1", "H1", 100, "2025-10"⟩] "S" "C1" "H1" "2025-10" 100
        = .ok [⟨"S", "C1", "H1", 100, "2025-10"⟩]
    ∧ ([⟨"S", "C1", "H1", 120, "2025-10"⟩] : List FeeStructureRow).countP
        (isKey "S" "C1" "H1" "2025-10") = 1 := by
  have h := setFeeStructure_upsert_semantics []
      [⟨"S", "C1", "H1", 100, "2025-10"⟩] [⟨"S", "C1", "H1", 120, "2025-10"⟩]
      "S" "C1" "H1" "2025-10" 100 120
      (by simp)
      (by rw [setFeeStructure, if_neg (by simp), if_neg (by norm_num)]; rfl)
      (by rw [setFeeStructure, if_neg (by simp), if_neg (by norm_num)]
          rw [upsertStructure, if_pos (by simp [structKey])])
  exact ⟨h.1, h.2.2.2.1⟩

/-! ## Idempotent bulk recorder (`bulkWrite` of `updateOne` + `upsert` ops)

Both `POST /attendance` and `POST /grades/bulk` map each request record to a
`bulkWrite` operation `{updateOne: {filter: naturalKey, update: {$set: …},
upsert: true}}` where the filter together with the `$set` document covers
every field of the stored row.  Consequently each operation is fully
described by the row it writes: it replaces the first stored row matching the
natural key with that row (Mongo's `updateOne` matches at most one document),
or appends the row when no document matches (`upsert`). -/

section BulkUpsert

variable {κ ρ : Type} [DecidableEq κ] (kf : ρ → κ)

/-- Apply one `updateOne`+`upsert` operation: replace the first row whose
natural key matches, else append. -/
def upsertByKey : List ρ → ρ → List ρ
  | [], r => [r]
  | x :: xs, r => if kf x = kf r then r :: xs else x :: upsertByKey xs r

/-- `Model.bulkWrite(operations)`: apply the operations in order. -/
def bulkUpsert (rows : List ρ) (ops : List ρ) : List ρ :=
  ops.foldl (upsertByKey kf) rows

/-- The last operation of `ops` writing natural key `k`, if any. -/
def lastW : List ρ → κ → Option ρ
  | [], _ => none
  | r :: rest, k =>
    match lastW rest k with
    | some x => some x
    | none => if kf r = k then some r else none

/-- The row a key holds after `ops` have been applied, when the key was
already present: the last operation writing it, else the original row. -/
def applyLast (ops : List ρ) (x : ρ) : ρ :=
  match lastW kf ops (kf x) with
  | some r => r
  | none => x

/-- The unique-index invariant: pairwise-distinct natural keys. -/
def DistinctKeys (rows : List ρ) : Prop :=
  rows.Pairwise (fun a b => kf a ≠ kf b)

theorem mem_upsertByKey {rows : List ρ} {r x : ρ}
    (hx : x ∈ upsertByKey kf rows r) : x ∈ rows ∨ x = r := by
  induction rows with
  | nil => simp [upsertByKey] at hx; exact Or.inr hx
  | cons y ys ih =>
    rw [upsertByKey] at hx
    by_cases hk : kf y = kf r
    · rw [if_pos hk] at hx
      rcases List.mem_cons.mp hx with h | h
      · exact Or.inr h
      · exact Or.inl (List.mem_cons_of_mem _ h)
    · rw [if_neg hk] at hx
      rcases List.mem_cons.mp hx with h | h
      · exact Or.inl (h ▸ List.mem_cons_self _ _)
      · rcases ih h with h' | h'
        · exact Or.inl (List.mem_cons_of_mem _ h')
        · exact Or.inr h'

theorem upsertByKey_distinct {rows : List ρ} (r : ρ)
    (hd : DistinctKeys kf rows) : DistinctKeys kf (upsertByKey kf rows r) := by
  induction rows with
  | nil => simp [upsertByKey, DistinctKeys]
  | cons y ys ih =>
    rw [DistinctKeys, List.pairwise_cons] at hd
    rw [upsertByKey]
    by_cases hk : kf y = kf r
    · rw [if_pos hk]
      rw [DistinctKeys, List.pairwise_cons]
      exact ⟨fun a ha => hk ▸ hd.1 a ha, hd.2⟩
    · rw [if_neg hk]
      rw [DistinctKeys, List.pairwise_cons]
      refine ⟨fun a ha => ?_, ih hd.2⟩
      rcases mem_upsertByKey kf ha with h | h
      · exact hd.1 a h
      · rw [h]; exact hk


theorem upsertByKey_present_self (rows : List ρ) (r : ρ) :
    ∃ x ∈ upsertByKey kf rows r, kf x = kf r := by
  induction rows with
  | nil => exact ⟨r, by simp [upsertByKey]⟩
  | cons y ys ih =>
    rw [upsertByKey]
    by_cases hk : kf y = kf r
    · rw [if_pos hk]; exact ⟨r, List.mem_cons_self _ _, rfl⟩
    · rw [if_neg hk]
      obtain ⟨x, hx, hkx⟩ := ih
      exact ⟨x, List.mem_cons_of_mem _ hx, hkx⟩

theorem upsertByKey_present_mono {rows : List ρ} {k : κ} (r : ρ)
    (h : ∃ x ∈ rows, kf x = k) : ∃ x ∈ upsertByKey kf rows r, kf x = k := by
  induction rows with
  | nil => simp at h
  | cons y ys ih =>
    rw [upsertByKey]
    obtain ⟨x, hx, hkx⟩ := h
    by_cases hk : kf y = kf r
    · rw [if_pos hk]
      rcases List.mem_cons.mp hx with h' | h'
      · subst h'
        exact ⟨r, List.mem_cons_self _ _, hk ▸ hkx⟩
      · exact ⟨x, List.mem_cons_of_mem _ h', hkx⟩
    · rw [if_neg hk]
      rcases List.mem_cons.mp hx with h' | h'
      · exact ⟨y, List.mem_cons_self _ _, h' ▸ hkx⟩
      · obtain ⟨x', hx', hkx'⟩ := ih ⟨x, h', hkx⟩
        exact ⟨x', List.mem_cons_of_mem _ hx', hkx'⟩

theorem bulkUpsert_present_mono {rows : List ρ} {k : κ} (ops : List ρ)
    (h : ∃ x ∈ rows, kf x = k) : ∃ x ∈ bulkUpsert kf rows ops, kf x = k := by
  induction ops generalizing rows with
  | nil => exact h
  | cons op rest ih => exact ih (upsertByKey_present_mono kf op h)

theorem bulkUpsert_present_ops (rows : List ρ) {ops : List ρ} {r : ρ}
    (hr : r ∈ ops) : ∃ x ∈ bulkUpsert kf rows ops, kf x = kf r := by
  induction ops generalizing rows with
  | nil => simp at hr
  | cons op rest ih =>
    rcases List.mem_cons.mp hr with h | h
    · subst h
      exact bulkUpsert_present_mono kf rest (upsertByKey_present_self kf rows r)
    · exact ih _ h

theorem bulkUpsert_distinct {rows : List ρ} (ops : List ρ)
    (hd : DistinctKeys kf rows) : DistinctKeys kf (bulkUpsert kf rows ops) := by
  induction ops generalizing rows with
  | nil => exact hd
  | cons op rest ih => exact ih (upsertByKey_distinct kf op hd)

theorem lastW_none {ops : List ρ} {k : κ} (h : lastW kf ops k = none) :
    ∀ r ∈ ops, kf r ≠ k := by
  induction ops with
  | nil => simp
  | cons op rest ih =>
    intro r hr
    rw [lastW] at h
    rcases List.mem_cons.mp hr with h' | h'
    · subst h'
      intro hc
      cases hrest : lastW kf rest k with
      | some x => rw [hrest] at h; exact absurd h (by simp)
      | none => rw [hrest, if_pos hc] at h; exact absurd h (by simp)
    · cases hrest : lastW kf rest k with
      | some x => rw [hrest] at h; exact absurd h (by simp)
      | none => exact ih hrest r h'

theorem bulkUpsert_untouched {rows : List ρ} {ops : List ρ} {k : κ}
    (hops : ∀ r ∈ ops, kf r ≠ k) :
    ∀ x ∈ bulkUpsert kf rows ops, kf x = k → x ∈ rows := by
  induction ops generalizing rows with
  | nil => intro x hx _; exact hx
  | cons op rest ih =>
    intro x hx hkx
    have hx1 := ih (fun r hr => hops r (List.mem_cons_of_mem _ hr)) x hx hkx
    rcases mem_upsertByKey kf hx1 with h | h
    · exact h
    · exact absurd (h ▸ hkx) (hops op (List.mem_cons_self _ _))

theorem mem_upsertByKey_key {rows : List ρ} {r x : ρ}
    (hd : DistinctKeys kf rows) (hx : x ∈ upsertByKey kf rows r)
    (hkx : kf x = kf r) : x = r := by
  induction rows with
  | nil => simpa [upsertByKey] using hx
  | cons y ys ih =>
    rw [DistinctKeys, List.pairwise_cons] at hd
    rw [upsertByKey] at hx
    by_cases hk : kf y = kf r
    · rw [if_pos hk] at hx
      rcases List.mem_cons.mp hx with h | h
      · exact h
      · exact absurd (hk.trans hkx.symm) (hd.1 x h)
    · rw [if_neg hk] at hx
      rcases List.mem_cons.mp hx with h | h
      · exact absurd (h ▸ hkx) hk
      · exact ih hd.2 h

theorem bulkUpsert_cons (rows : List ρ) (op : ρ) (rest : List ρ) :
    bulkUpsert kf rows (op :: rest) = bulkUpsert kf (upsertByKey kf rows op) rest := rfl

theorem mapWrite_untouched (r : ρ) (l : List ρ) (h : ∀ x ∈ l, kf x ≠ kf r) :
    l.map (fun x => if kf x = kf r then r else x) = l := by
  induction l with
  | nil => rfl
  | cons y ys ih =>
    rw [List.map_cons, if_neg (h y (List.mem_cons_self _ _)),
      ih (fun x hx => h x (List.mem_cons_of_mem _ hx))]

theorem upsertByKey_eq_map {rows : List ρ} (r : ρ)
    (hd : DistinctKeys kf rows) (hpres : ∃ x ∈ rows, kf x = kf r) :
    upsertByKey kf rows r = rows.map (fun x => if kf x = kf r then r else x) := by
  induction rows with
  | nil => simp at hpres
  | cons y ys ih =>
    rw [DistinctKeys, List.pairwise_cons] at hd
    rw [upsertByKey, List.map_cons]
    by_cases hk : kf y = kf r
    · rw [if_pos hk, if_pos hk]
      have huntouched : ∀ x ∈ ys, kf x ≠ kf r := by
        intro x hx
        rw [← hk]
        exact (hd.1 x hx).symm
      rw [mapWrite_untouched kf r ys huntouched]
    · rw [if_neg hk, if_neg hk]
      obtain ⟨x, hx, hkx⟩ := hpres
      rcases List.mem_cons.mp hx with h' | h'
      · exact absurd (h' ▸ hkx) hk
      · rw [ih hd.2 ⟨x, h', hkx⟩]

theorem applyLast_nil (x : ρ) : applyLast kf [] x = x := rfl

theorem applyLast_cons (op : ρ) (rest : List ρ) (x : ρ) :
    applyLast kf (op :: rest) x =
      match lastW kf rest (kf x) with
      | some r => r
      | none => if kf op = kf x then op else x := by
  rw [applyLast, lastW]
  cases h : lastW kf rest (kf x) with
  | some r => rfl
  | none => by_cases hc : kf op = kf x <;> simp [hc]

theorem bulkUpsert_eq_map {rows : List ρ} (ops : List ρ)
    (hd : DistinctKeys kf rows)
    (hpres : ∀ r ∈ ops, ∃ x ∈ rows, kf x = kf r) :
    bulkUpsert kf rows ops = rows.map (applyLast kf ops) := by
  induction ops generalizing rows with
  | nil =>
    have h1 : ∀ x ∈ rows, applyLast kf [] x = x := fun x _ => rfl
    have : rows.map (applyLast kf []) = rows := by
      rw [List.map_congr_left h1, List.map_id']
    exact this.symm
  | cons op rest ih =>
    rw [bulkUpsert_cons]
    have hpop := hpres op (List.mem_cons_self _ _)
    have e1 := upsertByKey_eq_map kf op hd hpop
    have hg1 : ∀ x : ρ, kf (if kf x = kf op then op else x) = kf x := by
      intro x
      by_cases h : kf x = kf op
      · rw [if_pos h, h]
      · rw [if_neg h]
    have hd1 : DistinctKeys kf (rows.map (fun x => if kf x = kf op then op else x)) := by
      rw [DistinctKeys, List.pairwise_map]
      exact hd.imp (fun {a b} h => by rw [hg1 a, hg1 b]; exact h)
    have hpres1 : ∀ r ∈ rest,
        ∃ x ∈ rows.map (fun x => if kf x = kf op then op else x), kf x = kf r := by
      intro r hr
      obtain ⟨x, hx, hkx⟩ := hpres r (List.mem_cons_of_mem _ hr)
      exact ⟨_, List.mem_map_of_mem _ hx, (hg1 x).trans hkx⟩
    rw [e1, ih hd1 hpres1, List.map_map]
    refine List.map_congr_left (fun x _ => ?_)
    show applyLast kf rest (if kf x = kf op then op else x) = applyLast kf (op :: rest) x
    rw [applyLast_cons]
    cases h : lastW kf rest (kf x) with
    | some r =>
      rw [applyLast, hg1 x, h]
    | none =>
      rw [applyLast, hg1 x, h]
      by_cases hc : kf x = kf op
      · rw [if_pos hc, if_pos hc.symm]
      · rw [if_neg hc, if_neg (fun h' => hc h'.symm)]

theorem bulkUpsert_synced {rows : List ρ} (ops : List ρ) (hd : DistinctKeys kf rows) :
    ∀ x ∈ bulkUpsert kf rows ops, applyLast kf ops x = x := by
  induction ops generalizing rows with
  | nil => exact fun x _ => rfl
  | cons op rest ih =>
    intro x hx
    rw [bulkUpsert_cons] at hx
    have hd1 := upsertByKey_distinct kf op hd
    have hsync := ih hd1 x hx
    rw [applyLast_cons]
    cases h : lastW kf rest (kf x) with
    | some r =>
      rw [applyLast, h] at hsync
      exact hsync
    | none =>
      by_cases hc : kf op = kf x
      · rw [if_pos hc]
        have hnone := lastW_none kf h
        have hx1 : x ∈ upsertByKey kf rows op := bulkUpsert_untouched kf hnone x hx rfl
        exact (mem_upsertByKey_key kf hd hx1 hc.symm).symm
      · rw [if_neg hc]

theorem bulkUpsert_idem {rows : List ρ} (ops : List ρ) (hd : DistinctKeys kf rows) :
    bulkUpsert kf (bulkUpsert kf rows ops) ops = bulkUpsert kf rows ops := by
  have hd' := bulkUpsert_distinct kf ops hd
  have hpres : ∀ r ∈ ops, ∃ x ∈ bulkUpsert kf rows ops, kf x = kf r :=
    fun r hr => bulkUpsert_present_ops kf rows hr
  rw [bulkUpsert_eq_map kf ops hd' hpres,
    List.map_congr_left (bulkUpsert_synced kf ops hd), List.map_id']

theorem countP_le_one_of_distinct (k : κ) {rows : List ρ} (hd : DistinctKeys kf rows) :
    rows.countP (fun x => kf x = k) ≤ 1 := by
  induction rows with
  | nil => simp
  | cons y ys ih =>
    rw [DistinctKeys, List.pairwise_cons] at hd
    by_cases hk : kf y = k
    · rw [List.countP_cons_of_pos _ _ (by simp [hk])]
      have hz : ys.countP (fun x => kf x = k) = 0 := by
        rw [List.countP_eq_zero]
        intro x hx
        simp only [decide_eq_true_eq]
        rw [← hk]
        exact (hd.1 x hx).symm
      omega
    · rw [List.countP_cons_of_neg _ _ (by simp [hk])]
      exact ih hd.2

theorem bulkUpsert_countKey {rows : List ρ} {ops : List ρ} {r : ρ}
    (hd : DistinctKeys kf rows) (hr : r ∈ ops) :
    (bulkUpsert kf rows ops).countP (fun x => kf x = kf r) = 1 := by
  have hle := countP_le_one_of_distinct kf (kf r) (bulkUpsert_distinct kf ops hd)
  have hpos : 0 < (bulkUpsert kf rows ops).countP (fun x => kf x = kf r) := by
    rw [List.countP_pos_iff]
    obtain ⟨x, hx, hkx⟩ := bulkUpsert_present_ops kf rows hr
    exact ⟨x, hx, by simp [hkx]⟩
  omega

theorem lastW_mem {ops : List ρ} {k : κ} {x : ρ} (h : lastW kf ops k = some x) :
    x ∈ ops ∧ kf x = k := by
  induction ops with
  | nil => simp [lastW] at h
  | cons op rest ih =>
    rw [lastW] at h
    cases h' : lastW kf rest k with
    | some y =>
      rw [h'] at h
      obtain rfl : y = x := by injection h
      obtain ⟨hm, hk⟩ := ih h'
      exact ⟨List.mem_cons_of_mem _ hm, hk⟩
    | none =>
      rw [h'] at h
      by_cases hc : kf op = k
      · rw [if_pos hc] at h
        obtain rfl : op = x := by injection h
        exact ⟨List.mem_cons_self _ _, hc⟩
      · rw [if_neg hc] at h
        exact absurd h (by simp)

theorem lastW_unique {ops : List ρ} {r : ρ} (hr : r ∈ ops)
    (huniq : ∀ r' ∈ ops, kf r' = kf r → r' = r) :
    lastW kf ops (kf r) = some r := by
  induction ops with
  | nil => simp at hr
  | cons op rest ih
  => rw [lastW]
     by_cases hmem : r ∈ rest
     · rw [ih hmem (fun r' h' hk => huniq r' (List.mem_cons_of_mem _ h') hk)]
     · have hop : op = r := by
         rcases List.mem_cons.mp hr with h | h
         · exact h.symm
         · exact absurd h hmem
       have hnone : lastW kf rest (kf r) = none := by
         cases h : lastW kf rest (kf r) with
         | none => rfl
         | some x =>
           obtain ⟨hxm, hxk⟩ := lastW_mem kf h
           have := huniq x (List.mem_cons_of_mem _ hxm) hxk
           exact absurd (this ▸ hxm) hmem
       rw [hnone, if_pos (by rw [hop])]
       rw [hop]

theorem bulkUpsert_find_last {rows : List ρ} {ops : List ρ} {r : ρ}
    (hd : DistinctKeys kf rows) (hr : r ∈ ops)
    (hlast : lastW kf ops (kf r) = some r) :
    (bulkUpsert kf rows ops).find? (fun x => kf x = kf r) = some r := by
  have hsome : ((bulkUpsert kf rows ops).find? (fun x => kf x = kf r)).isSome := by
    rw [List.find?_isSome]
    obtain ⟨x, hx, hkx⟩ := bulkUpsert_present_ops kf rows hr
    exact ⟨x, hx, by simp [hkx]⟩
  obtain ⟨x₀, hx₀⟩ := Option.isSome_iff_exists.mp hsome
  have hmem := List.mem_of_find?_eq_some hx₀
  have hp : kf x₀ = kf r := by simpa using List.find?_some hx₀
  have hsync := bulkUpsert_synced kf ops hd x₀ hmem
  rw [applyLast, hp, hlast] at hsync
  rw [hx₀]
  exact congrArg some hsync.symm

end BulkUpsert

/-! ## Attendance recording (`POST /attendance`) -/

/-- One element of the `POST /attendance` request body.  `date` is the parsed
epoch timestamp in milliseconds; `none` models an absent/empty (falsy) field. -/
structure AttRecordIn where
  studentId : String
  date : Option Int
  status : String
  deriving Repr, DecidableEq

/-- One stored `Attendance` document; `date` is truncated to UTC midnight. -/
structure AttendanceRow where
  schoolId : String
  studentId : String
  date : Int
  status : String
  markedBy : String
  deriving Repr, DecidableEq

/-- `attendanceDate.setUTCHours(0,0,0,0)`: floor the timestamp to the start
of its UTC day. -/
def dayTruncUTC (t : Int) : Int := t - t % 86400000

/-- The natural key `(schoolId, studentId, date)` of the unique index on the
`Attendance` collection. -/
def attKey (r : AttendanceRow) : String × String × Int :=
  (r.schoolId, r.studentId, r.date)

/-- The row written for one attendance record: the `updateOne` filter
`{schoolId, studentId, date}` merged with the `$set` document
`{status, schoolId, studentId, markedBy}` covers all five fields. -/
def mkAttendanceRow (schoolId userId : String) (r : AttRecordIn) : AttendanceRow :=
  ⟨schoolId, r.studentId, dayTruncUTC (r.date.getD 0), r.status, userId⟩

/-- The `attendanceDataArray.map(...)` loop of `POST /attendance`: each record
is validated (`!record.studentId || !record.date || !record.status` throws)
while the operation list is being built, before `Attendance.bulkWrite` is
ever called, so one malformed record anywhere in the array aborts the whole
request with the collection untouched. -/
def attendanceOps (schoolId userId : String) :
    List AttRecordIn → Except ApiError (List AttendanceRow)
  | [] => .ok []
  | r :: rest =>
    if r.studentId = "" ∨ r.date = none ∨ r.status = "" then .error .invalidInput
    else
      match attendanceOps schoolId userId rest with
      | .ok ops => .ok (mkAttendanceRow schoolId userId r :: ops)
      | .error e => .error e

/-- The `POST /attendance` handler: reject an empty batch, build the
operation list (validating every record first), then apply
`Attendance.bulkWrite(operations)`.  An `.error` result models a request
that throws before `bulkWrite`, leaving the collection unchanged. -/
def postAttendance (rows : List AttendanceRow) (schoolId userId : String)
    (records : List AttRecordIn) : Except ApiError (List AttendanceRow) :=
  if records = [] then .error .invalidInput
  else
    match attendanceOps schoolId userId records with
    | .error e => .error e
    | .ok ops => .ok (bulkUpsert attKey rows ops)

/-! ## Grade recording (`POST /grades/bulk`) -/

/-- One element of the `POST /grades/bulk` request body.  `obtainedMarks` is
checked with `== null` (so 0 is accepted); `totalMarks` and `remarks` are
filled through `||` defaults (so falsy values are replaced). -/
structure GradeRecordIn where
  studentId : String
  classId : String
  examId : String
  subject : String
  obtainedMarks : Option ℚ
  totalMarks : Option ℚ
  remarks : Option String
  deriving Repr, DecidableEq

/-- One stored `Grade` document. -/
structure GradeRow where
  schoolId : String
  studentId : String
  examId : String
  subject : String
  classId : String
  totalMarks : ℚ
  obtainedMarks : ℚ
  remarks : String
  deriving Repr, DecidableEq

/-- The natural key `(schoolId, studentId, examId, subject)` used by the
grade `updateOne` filter. -/
def gradeKey (g : GradeRow) : String × String × String × String :=
  (g.schoolId, g.studentId, g.examId, g.subject)

/-- `grade.totalMarks || 100`: an absent, null or 0 (falsy) value is replaced
by the default 100; any non-zero value is kept. -/
def defaultTotalMarks (t : Option ℚ) : ℚ :=
  match t with
  | none => 100
  | some v => if v = 0 then 100 else v

/-- The row written for one grade record: filter
`{schoolId, studentId, examId, subject}` merged with the `$set` document
`{classId, totalMarks, obtainedMarks, remarks}` covers all eight fields. -/
def mkGradeRow (schoolId : String) (g : GradeRecordIn) : GradeRow :=
  ⟨schoolId, g.studentId, g.examId, g.subject, g.classId,
    defaultTotalMarks g.totalMarks, g.obtainedMarks.getD 0, g.remarks.getD ""⟩

/-- The `gradesData.map(...)` loop of `POST /grades/bulk`: per-record
validation throws before `Grade.bulkWrite` is called. -/
def gradeOps (schoolId : String) :
    List GradeRecordIn → Except ApiError (List GradeRow)
  | [] => .ok []
  | g :: rest =>
    if g.studentId = "" ∨ g.classId = "" ∨ g.examId = "" ∨ g.subject = ""
        ∨ g.obtainedMarks = none then .error .invalidInput
    else
      match gradeOps schoolId rest with
      | .ok ops => .ok (mkGradeRow schoolId g :: ops)
      | .error e => .error e

/-- The `POST /grades/bulk` handler. -/
def postGradesBulk (rows : List GradeRow) (schoolId : String)
    (records : List GradeRecordIn) : Except ApiError (List GradeRow) :=
  if records = [] then .error .invalidInput
  else
    match gradeOps schoolId records with
    | .error e => .error e
    | .ok ops => .ok (bulkUpsert gradeKey rows ops)

theorem attendanceOps_ok {schoolId userId : String} {records : List AttRecordIn}
    {ops : List AttendanceRow}
    (h : attendanceOps schoolId userId records = .ok ops) :
    ops = records.map (mkAttendanceRow schoolId userId) := by
  induction records generalizing ops with
  | nil => rw [attendanceOps] at h; injection h with h; exact h.symm
  | cons r rest ih =>
    rw [attendanceOps] at h
    by_cases hval : r.studentId = "" ∨ r.date = none ∨ r.status = ""
    · rw [if_pos hval] at h; exact absurd h (by simp)
    · rw [if_neg hval] at h
      cases hrest : attendanceOps schoolId userId rest with
      | error e => rw [hrest] at h; exact absurd h (by simp)
      | ok ops' =>
        rw [hrest] at h
        injection h with h
        rw [← h, List.map_cons, ih hrest]

theorem attendanceOps_err {schoolId userId : String} {records : List AttRecordIn}
    (h : ∃ r ∈ records, r.studentId = "" ∨ r.date = none ∨ r.status = "") :
    attendanceOps schoolId userId records = .error .invalidInput := by
  induction records with
  | nil => simp at h
  | cons r rest ih =>
    rw [attendanceOps]
    by_cases hval : r.studentId = "" ∨ r.date = none ∨ r.status = ""
    · rw [if_pos hval]
    · rw [if_neg hval]
      obtain ⟨x, hx, hmal⟩ := h
      rcases List.mem_cons.mp hx with h' | h'
      · exact absurd (h' ▸ hmal) hval
      · rw [ih ⟨x, h', hmal⟩]

theorem gradeOps_ok {schoolId : String} {records : List GradeRecordIn}
    {ops : List GradeRow}
    (h : gradeOps schoolId records = .ok ops) :
    ops = records.map (mkGradeRow schoolId) := by
  induction records generalizing ops with
  | nil => rw [gradeOps] at h; injection h with h; exact h.symm
  | cons g rest ih =>
    rw [gradeOps] at h
    by_cases hval : g.studentId = "" ∨ g.classId = "" ∨ g.examId = ""
        ∨ g.subject = "" ∨ g.obtainedMarks = none
    · rw [if_pos hval] at h; exact absurd h (by simp)
    · rw [if_neg hval] at h
      cases hrest : gradeOps schoolId rest with
      | error e => rw [hrest] at h; exact absurd h (by simp)
      | ok ops' =>
        rw [hrest] at h
        injection h with h
        rw [← h, List.map_cons, ih hrest]

theorem gradeOps_err {schoolId : String} {records : List GradeRecordIn}
    (h : ∃ g ∈ records, g.studentId = "" ∨ g.classId = "" ∨ g.examId = ""
        ∨ g.subject = "" ∨ g.obtainedMarks = none) :
    gradeOps schoolId records = .error .invalidInput := by
  induction records with
  | nil => simp at h
  | cons g rest ih =>
    rw [gradeOps]
    by_cases hval : g.studentId = "" ∨ g.classId = "" ∨ g.examId = ""
        ∨ g.subject = "" ∨ g.obtainedMarks = none
    · rw [if_pos hval]
    · rw [if_neg hval]
      obtain ⟨x, hx, hmal⟩ := h
      rcases List.mem_cons.mp hx with h' | h'
      · exact absurd (h' ▸ hmal) hval
      · rw [ih ⟨x, h', hmal⟩]

/-- **C8.** Bulk attendance recording is idempotent by natural key: under the
unique index on `(schoolId, studentId, date)`, a successful submission
followed by a re-submission of the identical batch returns the stored
collection unchanged — every row is updated in place, no duplicate is
inserted — and the resulting collection holds exactly one row per submitted
record's natural key, never two. -/
theorem postAttendance_idempotent
    (rows rows1 : List AttendanceRow) (schoolId userId : String)
    (records : List AttRecordIn)
    (hdist : DistinctKeys attKey rows)
    (h1 : postAttendance rows schoolId userId records = .ok rows1) :
    postAttendance rows1 schoolId userId records = .ok rows1
    ∧ ∀ r ∈ records,
        rows1.countP
          (fun x => attKey x = attKey (mkAttendanceRow schoolId userId r)) = 1 := by
  rw [postAttendance] at h1
  by_cases hrec : records = []
  · rw [if_pos hrec] at h1; exact absurd h1 (by simp)
  · rw [if_neg hrec] at h1
    cases hops : attendanceOps schoolId userId records with
    | error e => rw [hops] at h1; exact absurd h1 (by simp)
    | ok ops =>
      rw [hops] at h1
      have e1 : rows1 = bulkUpsert attKey rows ops := by
        injection h1 with h; exact h.symm
      constructor
      · rw [postAttendance, if_neg hrec, hops, e1]
        exact congrArg Except.ok (bulkUpsert_idem attKey ops hdist)
      · intro r hr
        have hmem : mkAttendanceRow schoolId userId r ∈ ops := by
          rw [attendanceOps_ok hops]
          exact List.mem_map_of_mem _ hr
        rw [e1]
        exact bulkUpsert_countKey attKey hdist hmem

/-- Witness for C8: one record re-submitted over the collection it created. -/
theorem postAttendance_idempotent_witness :
    postAttendance [mkAttendanceRow "S" "U" ⟨"st1", some 90000000, "Present"⟩]
        "S" "U" [⟨"st1", some 90000000, "Present"⟩]
      = .ok [mkAttendanceRow "S" "U" ⟨"st1", some 90000000, "Present"⟩]
    ∧ ([mkAttendanceRow "S" "U" ⟨"st1", some 90000000, "Present"⟩]).countP
        (fun x => attKey x
          = attKey (mkAttendanceRow "S" "U" ⟨"st1", some 90000000, "Present"⟩)) = 1 := by
  have h := postAttendance_idempotent []
      [mkAttendanceRow "S" "U" ⟨"st1", some 90000000, "Present"⟩] "S" "U"
      [⟨"st1", some 90000000, "Present"⟩] List.Pairwise.nil rfl
  exact ⟨h.1, h.2 _ (List.mem_cons_self _ _)⟩

/-- **C9.** For both bulk endpoints, a batch containing at least one record
with a missing required field fails as a whole before any write is issued:
the per-record validation runs while the operation list is being built, so
`bulkWrite` is never reached and the collection is left unchanged (the
`.error` result carries no new collection state). -/
theorem bulk_validation_aborts_batch
    (rows : List AttendanceRow) (grows : List GradeRow)
    (schoolId userId gschoolId : String)
    (records : List AttRecordIn) (grecords : List GradeRecordIn)
    (hatt : ∃ r ∈ records, r.studentId = "" ∨ r.date = none ∨ r.status = "")
    (hgr : ∃ g ∈ grecords, g.studentId = "" ∨ g.classId = "" ∨ g.examId = ""
        ∨ g.subject = "" ∨ g.obtainedMarks = none) :
    postAttendance rows schoolId userId records = .error .invalidInput
    ∧ postGradesBulk grows gschoolId grecords = .error .invalidInput := by
  constructor
  · rw [postAttendance]
    by_cases hrec : records = []
    · rw [if_pos hrec]
    · rw [if_neg hrec, attendanceOps_err hatt]
  · rw [postGradesBulk]
    by_cases hrec : grecords = []
    · rw [if_pos hrec]
    · rw [if_neg hrec, gradeOps_err hgr]

/-- Witness for C9: a batch whose only record lacks its status / its
obtainedMarks aborts with `InvalidInput` and no write. -/
theorem bulk_validation_aborts_batch_witness :
    postAttendance [] "S" "U" [⟨"st1", some 90000000, ""⟩] = .error .invalidInput
    ∧ postGradesBulk [] "S" [⟨"st1", "c1", "e1", "math", none, some 100, none⟩]
        = .error .invalidInput :=
  bulk_validation_aborts_batch [] [] "S" "U" "S"
    [⟨"st1", some 90000000, ""⟩] [⟨"st1", "c1", "e1", "math", none, some 100, none⟩]
    ⟨_, List.mem_cons_self _ _, by simp⟩
    ⟨_, List.mem_cons_self _ _, by simp⟩

/-- **C10.** In bulk grade recording, a record whose `totalMarks` is absent,
null or 0 (all falsy to `grade.totalMarks || 100`) is stored with
`totalMarks = 100`, while any non-zero `totalMarks` is stored unchanged: the
row stored under the record's natural key is `mkGradeRow`, whose `totalMarks`
is exactly that defaulted value. -/
theorem postGradesBulk_totalMarks_default
    (rows rows1 : List GradeRow) (schoolId : String)
    (records : List GradeRecordIn) (g : GradeRecordIn)
    (hdist : DistinctKeys gradeKey rows)
    (h1 : postGradesBulk rows schoolId records = .ok rows1)
    (hg : g ∈ records)
    (huniq : ∀ g' ∈ records,
        gradeKey (mkGradeRow schoolId g') = gradeKey (mkGradeRow schoolId g) → g' = g) :
    rows1.find? (fun x => gradeKey x = gradeKey (mkGradeRow schoolId g))
        = some (mkGradeRow schoolId g)
    ∧ (mkGradeRow schoolId g).totalMarks
        = (if g.totalMarks = none ∨ g.totalMarks = some 0 then 100
           else g.totalMarks.getD 0) := by
  rw [postGradesBulk] at h1
  by_cases hrec : records = []
  · rw [if_pos hrec] at h1; exact absurd h1 (by simp)
  · rw [if_neg hrec] at h1
    cases hops : gradeOps schoolId records with
    | error e => rw [hops] at h1; exact absurd h1 (by simp)
    | ok ops =>
      rw [hops] at h1
      have e1 : rows1 = bulkUpsert gradeKey rows ops := by
        injection h1 with h; exact h.symm
      have hopsmap := gradeOps_ok hops
      have hmem : mkGradeRow schoolId g ∈ ops := by
        rw [hopsmap]; exact List.mem_map_of_mem _ hg
      have hlast : lastW gradeKey ops (gradeKey (mkGradeRow schoolId g))
          = some (mkGradeRow schoolId g) := by
        refine lastW_unique gradeKey hmem ?_
        intro r' hr' hk
        rw [hopsmap] at hr'
        obtain ⟨g', hg', rfl⟩ := List.mem_map.mp hr'
        rw [huniq g' hg' hk]
      constructor
      · rw [e1]
        exact bulkUpsert_find_last gradeKey hdist hmem hlast
      · cases ht : g.totalMarks with
        | none => simp [mkGradeRow, defaultTotalMarks, ht]
        | some v =>
          by_cases hv : v = 0 <;>
            simp [mkGradeRow, defaultTotalMarks, ht, hv]

/-- Witness for C10: a record with `totalMarks = 0` (falsy) is stored with
`totalMarks = 100`. -/
theorem postGradesBulk_totalMarks_default_witness :
    ([mkGradeRow "S" ⟨"st1", "c1", "e1", "math", some 40, some 0, none⟩]).find?
        (fun x => gradeKey x
          = gradeKey (mkGradeRow "S" ⟨"st1", "c1", "e1", "math", some 40, some 0, none⟩))
      = some (mkGradeRow "S" ⟨"st1", "c1", "e1", "math", some 40, some 0, none⟩)
    ∧ (mkGradeRow "S" ⟨"st1", "c1", "e1", "math", some 40, some 0, none⟩).totalMarks
      = (if (some 0 : Option ℚ) = none ∨ (some 0 : Option ℚ) = some 0 then 100
         else (some (0 : ℚ)).getD 0) :=
  postGradesBulk_totalMarks_default []
    [mkGradeRow "S" ⟨"st1", "c1", "e1", "math", some 40, some 0, none⟩] "S"
    [⟨"st1", "c1", "e1", "math", some 40, some 0, none⟩]
    ⟨"st1", "c1", "e1", "math", some 40, some 0, none⟩
    List.Pairwise.nil rfl (List.mem_cons_self _ _)
    (by intro g' hg' _; simpa using hg')

/-! ## Tenant bootstrap transaction (`POST /auth/register`) -/

/-- One `School` document. -/
structure SchoolRow where
  id : String
  schoolName : String
  institutionType : String
  ownerUserId : String
  deriving Repr, DecidableEq

/-- One `User` document (password kept abstract as the stored value). -/
structure UserRow where
  id : String
  fullName : String
  email : String
  password : String
  role : String
  schoolId : String
  refreshToken : String
  deriving Repr, DecidableEq

/-- One `Class` document (`sectionName` embeds the source field `section`). -/
structure ClassRow where
  schoolId : String
  name : String
  sectionName : String
  deriving Repr, DecidableEq

/-- One `FeeHead` document. -/
structure FeeHeadRow where
  id : String
  schoolId : String
  name : String
  isOneTime : Bool
  deriving Repr, DecidableEq

/-- The collections touched by registration. -/
structure RegState where
  schools : List SchoolRow
  users : List UserRow
  classes : List ClassRow
  feeHeads : List FeeHeadRow
  deriving Repr, DecidableEq

/-- The fifteen default grade names inserted for "School" institution types. -/
def defaultGrades : List String :=
  ["Playgroup", "Nursery", "KG", "Grade 1", "Grade 2", "Grade 3", "Grade 4",
   "Grade 5", "Grade 6", "Grade 7", "Grade 8", "Grade 9", "Grade 10",
   "Grade 11", "Grade 12"]

/-- The session-tentative state after the first three transaction writes:
`newSchool.save` (with `ownerUserId` already linking the owner),
`newAdminUser.save` (with `schoolId` linking the school), and the
`Class.bulkWrite` of default grades for "School" institution types. -/
def regTentative (st : RegState)
    (fullName email password schoolName institutionType : String)
    (newUserId newSchoolId : String) : RegState :=
  { st with
    schools := st.schools ++ [⟨newSchoolId, schoolName, institutionType, newUserId⟩],
    users := st.users ++ [⟨newUserId, fullName, email, password, "Admin", newSchoolId, ""⟩],
    classes := st.classes ++
      (if institutionType = "School" ∨ institutionType = "School & College"
       then defaultGrades.map (fun n => ⟨newSchoolId, n, "A"⟩) else []) }

/-- The committed state: the tentative writes plus the default-FeeHead insert
("Tuition Fee") and the refresh-token re-save of the owner user. -/
def regCommit (st : RegState)
    (fullName email password schoolName institutionType : String)
    (newUserId newSchoolId newFeeHeadId refreshToken : String) : RegState :=
  let t := regTentative st fullName email password schoolName institutionType
    newUserId newSchoolId
  { t with
    feeHeads := t.feeHeads ++ [⟨newFeeHeadId, newSchoolId, "Tuition Fee", false⟩],
    users := t.users.map
      (fun u => if u.id = newUserId then { u with refreshToken := refreshToken } else u) }

/-- The `POST /auth/register` handler over a `mongoose` session transaction:
missing fields are rejected before any write; a duplicate email is rejected
(`Conflict` in the spec's taxonomy) with nothing written; `failFeeHead`
injects the claim's forced failure of the default-FeeHead insert, which
aborts the transaction (`session.abortTransaction()`), discarding the
tentative School/User/Class writes; otherwise all five effects commit
together. -/
def registerTenant (st : RegState)
    (fullName email password schoolName institutionType : String)
    (newUserId newSchoolId newFeeHeadId refreshToken : String)
    (failFeeHead : Bool) : Except ApiError RegState :=
  if fullName = "" ∨ email = "" ∨ password = "" ∨ schoolName = ""
      ∨ institutionType = "" then .error .invalidInput
  else if st.users.any (fun u => u.email = email) then .error .conflict
  else if failFeeHead then .error .serverError
  else .ok (regCommit st fullName email password schoolName institutionType
    newUserId newSchoolId newFeeHeadId refreshToken)

/-- The collection state visible after the request: the committed state on
success, the untouched pre-transaction state on any error (rollback). -/
def applyRegister (st : RegState)
    (fullName email password schoolName institutionType : String)
    (newUserId newSchoolId newFeeHeadId refreshToken : String)
    (failFeeHead : Bool) : RegState :=
  match registerTenant st fullName email password schoolName institutionType
      newUserId newSchoolId newFeeHeadId refreshToken failFeeHead with
  | .ok st' => st'
  | .error _ => st

/-- **C7.** Tenant registration is atomic: a forced failure of the
default-FeeHead insert leaves the store exactly as before (no School, User or
Class row from the attempt persists); every error outcome rolls the whole
transaction back; duplicate email registration fails with `Conflict` (and
hence, by the previous conjunct, rolls back); and a successful registration
commits the School (linked to its owner), the owner User (linked to the
School, with the refresh token saved), the default Class rows and the default
FeeHead all together. -/
theorem registerTenant_atomic
    (st : RegState)
    (fullName email password schoolName institutionType : String)
    (newUserId newSchoolId newFeeHeadId refreshToken : String)
    (failFeeHead : Bool)
    (hfresh : ∀ u ∈ st.users, u.id ≠ newUserId) :
    (failFeeHead = true →
      applyRegister st fullName email password schoolName institutionType
        newUserId newSchoolId newFeeHeadId refreshToken failFeeHead = st)
    ∧ (∀ e, registerTenant st fullName email password schoolName institutionType
          newUserId newSchoolId newFeeHeadId refreshToken failFeeHead = .error e →
        applyRegister st fullName email password schoolName institutionType
          newUserId newSchoolId newFeeHeadId refreshToken failFeeHead = st)
    ∧ ((∃ u ∈ st.users, u.email = email) → fullName ≠ "" → email ≠ "" →
        password ≠ "" → schoolName ≠ "" → institutionType ≠ "" →
        registerTenant st fullName email password schoolName institutionType
          newUserId newSchoolId newFeeHeadId refreshToken failFeeHead
          = .error .conflict)
    ∧ (∀ st', registerTenant st fullName email password schoolName institutionType
          newUserId newSchoolId newFeeHeadId refreshToken failFeeHead = .ok st' →
        st'.schools = st.schools
            ++ [⟨newSchoolId, schoolName, institutionType, newUserId⟩]
        ∧ st'.users = st.users
            ++ [⟨newUserId, fullName, email, password, "Admin", newSchoolId, refreshToken⟩]
        ∧ st'.classes = st.classes ++
            (if institutionType = "School" ∨ institutionType = "School & College"
             then defaultGrades.map (fun n => (⟨newSchoolId, n, "A"⟩ : ClassRow)) else [])
        ∧ st'.feeHeads = st.feeHeads
            ++ [⟨newFeeHeadId, newSchoolId, "Tuition Fee", false⟩]) := by
  have herr : ∀ e, registerTenant st fullName email password schoolName institutionType
      newUserId newSchoolId newFeeHeadId refreshToken failFeeHead = .error e →
      applyRegister st fullName email password schoolName institutionType
        newUserId newSchoolId newFeeHeadId refreshToken failFeeHead = st := by
    intro e he
    rw [applyRegister, he]
  refine ⟨?_, herr, ?_, ?_⟩
  · intro hff
    subst hff
    by_cases h1 : fullName = "" ∨ email = "" ∨ password = "" ∨ schoolName = ""
        ∨ institutionType = ""
    · exact herr _ (by rw [registerTenant, if_pos h1])
    · by_cases h2 : (st.users.any (fun u => u.email = email)) = true
      · exact herr _ (by rw [registerTenant, if_neg h1, if_pos h2])
      · exact herr _ (by rw [registerTenant, if_neg h1, if_neg h2]; rfl)
  · intro hdup hf he hp hs hi
    have h1 : ¬ (fullName = "" ∨ email = "" ∨ password = "" ∨ schoolName = ""
        ∨ institutionType = "") := by
      intro h
      rcases h with h | h | h | h | h
      exacts [hf h, he h, hp h, hs h, hi h]
    have h2 : (st.users.any (fun u => u.email = email)) = true := by
      rw [List.any_eq_true]
      obtain ⟨u, hu, heq⟩ := hdup
      exact ⟨u, hu, by simp [heq]⟩
    rw [registerTenant, if_neg h1, if_pos h2]
  · intro st' h
    rw [registerTenant] at h
    by_cases h1 : fullName = "" ∨ email = "" ∨ password = "" ∨ schoolName = ""
        ∨ institutionType = ""
    · rw [if_pos h1] at h; exact absurd h (by simp)
    · rw [if_neg h1] at h
      by_cases h2 : (st.users.any (fun u => u.email = email)) = true
      · rw [if_pos h2] at h; exact absurd h (by simp)
      · rw [if_neg h2] at h
        by_cases h3 : failFeeHead = true
        · rw [if_pos h3] at h; exact absurd h (by simp)
        · rw [if_neg h3] at h
          have e1 : st' = regCommit st fullName email password schoolName
              institutionType newUserId newSchoolId newFeeHeadId refreshToken := by
            injection h with h; exact h.symm
          subst e1
          refine ⟨by simp [regCommit, regTentative], ?_,
            by simp [regCommit, regTentative], by simp [regCommit, regTentative]⟩
          show (regTentative st fullName email password schoolName institutionType
              newUserId newSchoolId).users.map
              (fun u => if u.id = newUserId
                then { u with refreshToken := refreshToken } else u) = _
          rw [regTentative]
          simp only [List.map_append]
          have hmap : st.users.map
              (fun u => if u.id = newUserId
                then { u with refreshToken := refreshToken } else u)
              = st.users.map (fun u => u) :=
            List.map_congr_left (fun u hu => if_neg (hfresh u hu))
          rw [hmap, List.map_id']
          simp

/-- Witness for C7: on an empty store, a registration whose default-FeeHead
insert is forced to fail leaves the store exactly empty. -/
theorem registerTenant_atomic_witness :
    applyRegister ⟨[], [], [], []⟩ "Owner One" "owner@alpha.test" "pw" "Alpha School"
      "School" "U1" "S1" "F1" "tok" true = ⟨[], [], [], []⟩ :=
  (registerTenant_atomic ⟨[], [], [], []⟩ "Owner One" "owner@alpha.test" "pw"
    "Alpha School" "School" "U1" "S1" "F1" "tok" true (by simp)).1 rfl

/-! ## Student ledger report (`GET /reports/student-ledger`) -/

/-- One `Student` document (only the fields the ledger uses). -/
structure StudentRow where
  id : String
  schoolId : String
  classId : String
  deriving Repr, DecidableEq

/-- One stored `FeePayment` document. -/
structure FeePaymentRow where
  schoolId : String
  studentId : String
  classId : String
  monthYear : String
  paymentDate : Int
  totalAmountPaid : ℚ
  items : List PaymentItem
  receivedBy : String
  remarks : String
  deriving Repr, DecidableEq

/-- The collections the ledger report reads. -/
structure Store where
  students : List StudentRow
  feeHeads : List FeeHeadRow
  feeStructures : List FeeStructureRow
  feePayments : List FeePaymentRow
  deriving Repr, DecidableEq

/-- One row of the report's `dues` array (`balanceDetails`). -/
structure BalanceRow where
  feeHeadId : String
  name : String
  due : ℚ
  paid : ℚ
  balance : ℚ
  deriving Repr, DecidableEq

/-- The report's `summary` object. -/
structure LedgerSummary where
  totalDue : ℚ
  totalPaid : ℚ
  balance : ℚ
  deriving Repr, DecidableEq

/-- The `GET /reports/student-ledger` response body.  (The handler sorts
`payments` by `paymentDate` descending for presentation; the sort permutes
the `payments` array only and is omitted here — every quantity below is an
order-insensitive sum or keyed lookup.) -/
structure LedgerResponse where
  dues : List BalanceRow
  payments : List FeePaymentRow
  summary : LedgerSummary
  deriving Repr, DecidableEq

/-- JavaScript `Map.set`: overwrite in place when the key exists, append
otherwise. -/
def mapSet {α : Type} (m : List (String × α)) (k : String) (v : α) :
    List (String × α) :=
  if m.any (fun e => e.1 = k) then m.map (fun e => if e.1 = k then (k, v) else e)
  else m ++ [(k, v)]

/-- JavaScript `map.get(k) || d` / `map.get(k) ?? d`. -/
def mapGetD {α : Type} (m : List (String × α)) (k : String) (d : α) : α :=
  ((m.find? (fun e => e.1 = k)).map Prod.snd).getD d

/-- `FeeStructure.find({schoolId, classId: student.classId, monthYear})`. -/
def duesOf (st : Store) (schoolId classId monthYear : String) :
    List FeeStructureRow :=
  st.feeStructures.filter
    (fun f => f.schoolId = schoolId ∧ f.classId = classId ∧ f.monthYear = monthYear)

/-- `FeePayment.find({schoolId, studentId, monthYear})`. -/
def paymentsOf (st : Store) (schoolId studentId monthYear : String) :
    List FeePaymentRow :=
  st.feePayments.filter
    (fun p => p.schoolId = schoolId ∧ p.studentId = studentId ∧ p.monthYear = monthYear)

/-- The `populate("feeHeadId")` resolution of one structure: the referenced
fee head looked up by id, paired with the structure's amount; `none` models a
dangling reference (`due.feeHeadId` unpopulated). -/
def resolvedHead (heads : List FeeHeadRow) (d : FeeStructureRow) :
    Option (String × String × ℚ) :=
  (heads.find? (fun h => h.id = d.feeHeadId)).map (fun h => (h.id, h.name, d.amount))

/-- The body of the handler's first summary loop: skip structures whose head
does not resolve, otherwise `totalDue += due.amount` and
`dueMap.set(head._id, {name, amount})`. -/
def duesStep (heads : List FeeHeadRow) (acc : ℚ × List (String × String × ℚ))
    (d : FeeStructureRow) : ℚ × List (String × String × ℚ) :=
  match resolvedHead heads d with
  | some e => (acc.1 + e.2.2, mapSet acc.2 e.1 e.2)
  | none => acc

/-- The handler's first summary loop: `(totalDue, dueMap)`. -/
def duesFold (heads : List FeeHeadRow) (dues : List FeeStructureRow) :
    ℚ × List (String × String × ℚ) :=
  dues.foldl (duesStep heads) (0, [])

/-- The body of the handler's second summary loop:
`totalPaid += payment.totalAmountPaid` and, for each item,
`paidMap.set(headId, (paidMap.get(headId) || 0) + item.amountPaid)`. -/
def paidStep (acc : ℚ × List (String × ℚ)) (p : FeePaymentRow) :
    ℚ × List (String × ℚ) :=
  (acc.1 + p.totalAmountPaid,
    p.items.foldl
      (fun m it => mapSet m it.feeHeadId (mapGetD m it.feeHeadId 0 + it.amountPaid))
      acc.2)

/-- The handler's second summary loop: `(totalPaid, paidMap)`. -/
def paidFold (payments : List FeePaymentRow) : ℚ × List (String × ℚ) :=
  payments.foldl paidStep (0, [])

/-- The `200` payload of `GET /reports/student-ledger`: `balanceDetails`
built from `dueMap` and `paidMap`, the raw `payments`, and the summary
`{totalDue, totalPaid, balance: totalDue - totalPaid}`. -/
def ledgerPayload (st : Store) (schoolId studentId monthYear classId : String) :
    LedgerResponse :=
  { dues := (duesFold st.feeHeads (duesOf st schoolId classId monthYear)).2.map
      (fun e =>
        ⟨e.1, e.2.1, e.2.2,
          mapGetD (paidFold (paymentsOf st schoolId studentId monthYear)).2 e.1 0,
          e.2.2
            - mapGetD (paidFold (paymentsOf st schoolId studentId monthYear)).2 e.1 0⟩),
    payments := paymentsOf st schoolId studentId monthYear,
    summary :=
      { totalDue := (duesFold st.feeHeads (duesOf st schoolId classId monthYear)).1,
        totalPaid := (paidFold (paymentsOf st schoolId studentId monthYear)).1,
        balance := (duesFold st.feeHeads (duesOf st schoolId classId monthYear)).1
          - (paidFold (paymentsOf st schoolId studentId monthYear)).1 } }

/-- The `GET /reports/student-ledger` handler: validate the query, resolve
the student within the tenant, and emit the ledger payload for the student's
class. -/
def getStudentLedger (st : Store) (schoolId studentId monthYear : String) :
    Except ApiError LedgerResponse :=
  if studentId = "" ∨ monthYear = "" then .error .invalidInput
  else
    match st.students.find? (fun s => s.id = studentId ∧ s.schoolId = schoolId) with
    | none => .error .notFound
    | some student => .ok (ledgerPayload st schoolId studentId monthYear student.classId)

/-- Modelled from the spec: §4.3's reference ledger.  One row per fee head
that has a (resolvable) FeeStructure for the class and month, in listing
order; `summary.totalDue` is the sum of those structure amounts;
`summary.totalPaid` is the sum of `totalAmountPaid` over the stored payments
(the raw recorded totals); `summary.balance = totalDue − totalPaid`.  The
per-head `paidMap` is the same per-item summation the code performs (spec
step 3). -/
def ledgerPayloadSpec (st : Store) (schoolId studentId monthYear classId : String) :
    LedgerResponse :=
  { dues := ((duesOf st schoolId classId monthYear).filterMap
      (resolvedHead st.feeHeads)).map
      (fun e =>
        ⟨e.1, e.2.1, e.2.2,
          mapGetD (paidFold (paymentsOf st schoolId studentId monthYear)).2 e.1 0,
          e.2.2
            - mapGetD (paidFold (paymentsOf st schoolId studentId monthYear)).2 e.1 0⟩),
    payments := paymentsOf st schoolId studentId monthYear,
    summary :=
      { totalDue := (((duesOf st schoolId classId monthYear).filterMap
          (resolvedHead st.feeHeads)).map (fun e => e.2.2)).sum,
        totalPaid := ((paymentsOf st schoolId studentId monthYear).map
          FeePaymentRow.totalAmountPaid).sum,
        balance := (((duesOf st schoolId classId monthYear).filterMap
          (resolvedHead st.feeHeads)).map (fun e => e.2.2)).sum
          - ((paymentsOf st schoolId studentId monthYear).map
            FeePaymentRow.totalAmountPaid).sum } }

/-- Modelled from the spec: the §4.3 contract with the same request shell as
the handler. -/
def getStudentLedgerSpec (st : Store) (schoolId studentId monthYear : String) :
    Except ApiError LedgerResponse :=
  if studentId = "" ∨ monthYear = "" then .error .invalidInput
  else
    match st.students.find? (fun s => s.id = studentId ∧ s.schoolId = schoolId) with
    | none => .error .notFound
    | some student =>
      .ok (ledgerPayloadSpec st schoolId studentId monthYear student.classId)

/-- The `POST /fees/payments` handler: required-field validation
(`!totalAmountPaid` also rejects a zero total; `items` must be a non-empty
array), then the payment is persisted append-only. -/
def recordFeePayment (st : Store) (p : FeePaymentRow) : Except ApiError Store :=
  if p.studentId = "" ∨ p.classId = "" ∨ p.monthYear = "" ∨ p.totalAmountPaid = 0
      ∨ p.items = [] then .error .invalidInput
  else .ok { st with feePayments := st.feePayments ++ [p] }

theorem paidFold_go_fst (payments : List FeePaymentRow) (acc : ℚ × List (String × ℚ)) :
    (payments.foldl paidStep acc).1
      = acc.1 + (payments.map FeePaymentRow.totalAmountPaid).sum := by
  induction payments generalizing acc with
  | nil => simp
  | cons p ps ih =>
    rw [List.foldl_cons, ih]
    simp only [paidStep, List.map_cons, List.sum_cons]
    ring

theorem resolvedHead_fst {heads : List FeeHeadRow} {d : FeeStructureRow}
    {e : String × String × ℚ} (h : resolvedHead heads d = some e) :
    e.1 = d.feeHeadId := by
  rw [resolvedHead] at h
  obtain ⟨hh, hfind, hmap⟩ := Option.map_eq_some'.mp h
  have hid := List.find?_some hfind
  simp only [decide_eq_true_eq] at hid
  rw [← hmap]
  exact hid

theorem resolved_pairwise (heads : List FeeHeadRow) (dues : List FeeStructureRow)
    (h : dues.Pairwise (fun a b => a.feeHeadId ≠ b.feeHeadId)) :
    (dues.filterMap (resolvedHead heads)).Pairwise (fun a b => a.1 ≠ b.1) := by
  induction dues with
  | nil => simp
  | cons d ds ih =>
    rw [List.pairwise_cons] at h
    cases hres : resolvedHead heads d with
    | none => rw [List.filterMap_cons_none hres]; exact ih h.2
    | some e =>
      rw [List.filterMap_cons_some hres, List.pairwise_cons]
      refine ⟨?_, ih h.2⟩
      intro e' he'
      obtain ⟨d', hd', hres'⟩ := List.mem_filterMap.mp he'
      rw [resolvedHead_fst hres, resolvedHead_fst hres']
      exact h.1 d' hd'

theorem mapSet_append {α : Type} (m : List (String × α)) (k : String) (v : α)
    (h : ∀ e ∈ m, e.1 ≠ k) : mapSet m k v = m ++ [(k, v)] := by
  rw [mapSet, if_neg]
  intro hc
  rw [List.any_eq_true] at hc
  obtain ⟨e, he, hek⟩ := hc
  exact h e he (by simpa using hek)

theorem duesFold_go (heads : List FeeHeadRow) (dues : List FeeStructureRow) :
    ∀ acc : ℚ × List (String × String × ℚ),
      (dues.filterMap (resolvedHead heads)).Pairwise (fun a b => a.1 ≠ b.1) →
      (∀ e ∈ dues.filterMap (resolvedHead heads), ∀ e' ∈ acc.2, e'.1 ≠ e.1) →
      dues.foldl (duesStep heads) acc
        = (acc.1 + ((dues.filterMap (resolvedHead heads)).map (fun e => e.2.2)).sum,
           acc.2 ++ dues.filterMap (resolvedHead heads)) := by
  induction dues with
  | nil => intro acc _ _; simp
  | cons d ds ih =>
    intro acc hdist hdisj
    rw [List.foldl_cons]
    cases hres : resolvedHead heads d with
    | none =>
      have hfm : (d :: ds).filterMap (resolvedHead heads)
          = ds.filterMap (resolvedHead heads) := List.filterMap_cons_none hres
      rw [hfm] at hdist hdisj
      have hstep : duesStep heads acc d = acc := by rw [duesStep, hres]
      rw [hstep, hfm]
      exact ih acc hdist hdisj
    | some e =>
      have hfm : (d :: ds).filterMap (resolvedHead heads)
          = e :: ds.filterMap (resolvedHead heads) := List.filterMap_cons_some hres
      rw [hfm] at hdist hdisj
      rw [List.pairwise_cons] at hdist
      have hstep : duesStep heads acc d = (acc.1 + e.2.2, mapSet acc.2 e.1 e.2) := by
        rw [duesStep, hres]
      have hnew : mapSet acc.2 e.1 e.2 = acc.2 ++ [(e.1, e.2)] :=
        mapSet_append _ _ _ (fun e' he' => hdisj e (List.mem_cons_self _ _) e' he')
      rw [hstep, hfm, hnew]
      have hdisj' : ∀ x ∈ ds.filterMap (resolvedHead heads),
          ∀ e' ∈ acc.2 ++ [(e.1, e.2)], e'.1 ≠ x.1 := by
        intro x hx e' he'
        rcases List.mem_append.mp he' with h' | h'
        · exact hdisj x (List.mem_cons_of_mem _ hx) e' h'
        · have he'' : e' = (e.1, e.2) := by simpa using h'
          rw [he'']
          exact hdist.1 x hx
      rw [ih (acc.1 + e.2.2, acc.2 ++ [(e.1, e.2)]) hdist.2 hdisj']
      refine Prod.ext ?_ ?_
      · simp only [List.map_cons, List.sum_cons]
        ring
      · simp [List.append_assoc]

theorem resolved_keys_pairwise (st : Store) (schoolId classId monthYear : String)
    (huniq : st.feeStructures.Pairwise (fun a b => structKey a ≠ structKey b)) :
    ((duesOf st schoolId classId monthYear).filterMap
        (resolvedHead st.feeHeads)).Pairwise (fun a b => a.1 ≠ b.1) := by
  apply resolved_pairwise
  have hsub : (duesOf st schoolId classId monthYear).Pairwise
      (fun a b => structKey a ≠ structKey b) :=
    huniq.sublist (List.filter_sublist _)
  refine List.Pairwise.imp_of_mem ?_ hsub
  intro a b ha hb hk
  rw [duesOf] at ha hb
  have hpa := (List.mem_filter.mp ha).2
  have hpb := (List.mem_filter.mp hb).2
  simp only [decide_eq_true_eq] at hpa hpb
  obtain ⟨ha1, ha2, ha3⟩ := hpa
  obtain ⟨hb1, hb2, hb3⟩ := hpb
  intro hfh
  exact hk (by rw [structKey, structKey, ha1, hb1, ha2, hb2, ha3, hb3, hfh])

theorem ledgerPayload_eq (st : Store) (schoolId studentId monthYear classId : String)
    (huniq : st.feeStructures.Pairwise (fun a b => structKey a ≠ structKey b)) :
    ledgerPayload st schoolId studentId monthYear classId
      = ledgerPayloadSpec st schoolId studentId monthYear classId := by
  have hD : duesFold st.feeHeads (duesOf st schoolId classId monthYear)
      = ((((duesOf st schoolId classId monthYear).filterMap
            (resolvedHead st.feeHeads)).map (fun e => e.2.2)).sum,
         (duesOf st schoolId classId monthYear).filterMap (resolvedHead st.feeHeads)) := by
    rw [duesFold, duesFold_go st.feeHeads (duesOf st schoolId classId monthYear) (0, [])
      (resolved_keys_pairwise st schoolId classId monthYear huniq)
      (by intro e _ e' he'; simp at he')]
    simp
  have hP : (paidFold (paymentsOf st schoolId studentId monthYear)).1
      = ((paymentsOf st schoolId studentId monthYear).map
          FeePaymentRow.totalAmountPaid).sum := by
    rw [paidFold, paidFold_go_fst]
    simp
  rw [ledgerPayload, ledgerPayloadSpec, hD, hP]

/-- **C4.** `getStudentLedger` equals the spec's reference ledger under the
`FeeStructure` unique index: one row per fee head having a (resolvable)
structure for the student's class and month, `summary.totalDue` the sum of
those structure amounts, `summary.totalPaid` the sum of the stored payments'
raw `totalAmountPaid`, `summary.balance = totalDue − totalPaid`; and the
ledger round-trip: after recording one payment whose items sum to `X`
(with `totalAmountPaid` equal to that sum) against dues totalling `D ≥ X`,
the report shows `totalPaid = X` and `balance = D − X`. -/
theorem getStudentLedger_eq_spec
    (st : Store) (schoolId studentId monthYear : String)
    (huniq : st.feeStructures.Pairwise (fun a b => structKey a ≠ structKey b)) :
    getStudentLedger st schoolId studentId monthYear
      = getStudentLedgerSpec st schoolId studentId monthYear
    ∧ (∀ (p : FeePaymentRow) (st' : Store) (L : LedgerResponse),
        paymentsOf st schoolId studentId monthYear = [] →
        p.schoolId = schoolId → p.studentId = studentId → p.monthYear = monthYear →
        p.totalAmountPaid = itemsSum p.items →
        recordFeePayment st p = .ok st' →
        getStudentLedger st' schoolId studentId monthYear = .ok L →
        itemsSum p.items ≤ L.summary.totalDue →
        L.summary.totalPaid = itemsSum p.items
        ∧ L.summary.balance = L.summary.totalDue - itemsSum p.items) := by
  constructor
  · rw [getStudentLedger, getStudentLedgerSpec]
    by_cases hval : studentId = "" ∨ monthYear = ""
    · rw [if_pos hval, if_pos hval]
    · rw [if_neg hval, if_neg hval]
      cases hstu : st.students.find?
          (fun s => s.id = studentId ∧ s.schoolId = schoolId) with
      | none => rfl
      | some student =>
        exact congrArg Except.ok
          (ledgerPayload_eq st schoolId studentId monthYear student.classId huniq)
  · intro p st' L hempty hk1 hk2 hk3 hsum hrec hled hDX
    rw [recordFeePayment] at hrec
    by_cases hv : p.studentId = "" ∨ p.classId = "" ∨ p.monthYear = ""
        ∨ p.totalAmountPaid = 0 ∨ p.items = []
    · rw [if_pos hv] at hrec; exact absurd hrec (by simp)
    · rw [if_neg hv] at hrec
      have est : st' = { st with feePayments := st.feePayments ++ [p] } := by
        injection hrec with h; exact h.symm
      subst est
      have hpay : paymentsOf { st with feePayments := st.feePayments ++ [p] }
          schoolId studentId monthYear = [p] := by
        rw [paymentsOf] at hempty ⊢
        have hproj : ({ st with feePayments := st.feePayments ++ [p] } : Store).feePayments
            = st.feePayments ++ [p] := rfl
        rw [hproj, List.filter_append, hempty]
        simp [hk1, hk2, hk3]
      rw [getStudentLedger] at hled
      by_cases hval : studentId = "" ∨ monthYear = ""
      · rw [if_pos hval] at hled; exact absurd hled (by simp)
      · rw [if_neg hval] at hled
        have hstd : ({ st with feePayments := st.feePayments ++ [p] } : Store).students
            = st.students := rfl
        rw [hstd] at hled
        cases hstu : st.students.find?
            (fun s => s.id = studentId ∧ s.schoolId = schoolId) with
        | none => rw [hstu] at hled; exact absurd hled (by simp)
        | some student =>
          rw [hstu] at hled
          have hled' : (Except.ok
              (ledgerPayload { st with feePayments := st.feePayments ++ [p] }
                schoolId studentId monthYear student.classId)
              : Except ApiError LedgerResponse) = Except.ok L := hled
          have hL : L = ledgerPayload { st with feePayments := st.feePayments ++ [p] }
              schoolId studentId monthYear student.classId := by
            injection hled' with h; exact h.symm
          subst hL
          have htp : (ledgerPayload { st with feePayments := st.feePayments ++ [p] }
              schoolId studentId monthYear student.classId).summary.totalPaid
              = itemsSum p.items := by
            show (paidFold (paymentsOf { st with feePayments := st.feePayments ++ [p] }
              schoolId studentId monthYear)).1 = itemsSum p.items
            rw [hpay, paidFold, paidFold_go_fst]
            simp [hsum]
          refine ⟨htp, ?_⟩
          show (duesFold _ _).1 - (paidFold (paymentsOf _ schoolId studentId monthYear)).1
              = (duesFold _ _).1 - itemsSum p.items
          rw [hpay, paidFold, paidFold_go_fst]
          simp [hsum]

/-- Concrete store for the ledger witness: one student in class C1, one fee
head, one 100-due structure for 2025-10, no payments yet. -/
def exStore : Store :=
  ⟨[⟨"stu1", "S", "C1"⟩], [⟨"H1", "S", "Tuition", false⟩],
    [⟨"S", "C1", "H1", 100, "2025-10"⟩], []⟩

/-- Concrete payment of 60 allocated wholly to head H1. -/
def exPayment : FeePaymentRow :=
  ⟨"S", "stu1", "C1", "2025-10", 0, 60, [⟨"H1", 60⟩], "U1", ""⟩

/-- The store after recording `exPayment`. -/
def exStoreAfter : Store :=
  ⟨[⟨"stu1", "S", "C1"⟩], [⟨"H1", "S", "Tuition", false⟩],
    [⟨"S", "C1", "H1", 100, "2025-10"⟩], [exPayment]⟩

/-- The expected ledger response after the payment: due 100, paid 60,
balance 40. -/
def exLedgerResp : LedgerResponse :=
  ⟨[⟨"H1", "Tuition", 100, 60, 40⟩], [exPayment], ⟨100, 60, 40⟩⟩

/-- Witness for C4 on the concrete store: the handler agrees with the spec
ledger, and the round-trip on a payment of 60 against a 100 due reports
`totalPaid = 60` and `balance = 100 − 60`. -/
theorem getStudentLedger_eq_spec_witness :
    getStudentLedger exStore "S" "stu1" "2025-10"
      = getStudentLedgerSpec exStore "S" "stu1" "2025-10"
    ∧ exLedgerResp.summary.totalPaid = itemsSum exPayment.items
    ∧ exLedgerResp.summary.balance
      = exLedgerResp.summary.totalDue - itemsSum exPayment.items := by
  have h := getStudentLedger_eq_spec exStore "S" "stu1" "2025-10"
    (by simp [exStore])
  have h2 := h.2 exPayment exStoreAfter exLedgerResp
    (by norm_num [paymentsOf, exStore])
    rfl rfl rfl
    (by norm_num [exPayment, itemsSum])
    (by
      rw [recordFeePayment, if_neg (by decide)]
      norm_num [exStore, exStoreAfter, exPayment])
    (by
      rw [getStudentLedger, if_neg (by decide)]
      norm_num [exStoreAfter, exPayment, exLedgerResp, ledgerPayload, duesOf,
        paymentsOf, duesFold, duesStep, paidFold, paidStep, resolvedHead,
        mapSet, mapGetD, List.find?, List.filter])
    (by norm_num [exPayment, exLedgerResp, itemsSum])
  exact ⟨h.1, h2.1, h2.2⟩

end WebOS
